import Mathlib

/-!
Verification development for the paper-trading bot backend.

The Python sources are embedded shallowly:
* floats are modelled as exact rationals (`ℚ`); the spec's claims are stated
  "within floating-point epsilon", which the exact model witnesses;
* Python dicts keyed by market id are modelled as insertion-ordered
  association lists (`List (String × α)`) with first-match lookup,
  in-place update and deletion — the operations a `dict` performs;
* ambient nondeterminism (the wall clock `datetime.utcnow()`, `random.*`
  draws, `uuid` values) is passed in as explicit arguments; the uuid and
  timestamp fields of logged transactions, which no claim depends on, are
  omitted from the `Transaction` record;
* a Python function that can raise returns an explicit result type
  (`BuyResult` distinguishes the `ZeroDivisionError` path of
  `PaperWallet.buy`, including the state at the moment of the raise).
-/

/-! ### Python dict model (backend/wallet_env.py stores positions in a dict) -/

/-- First-match lookup in an association list: `d.get(k)` / `k in d`. -/
def dictGet {α : Type} : List (String × α) → String → Option α
  | [], _ => none
  | (k', v) :: rest, k => if k' = k then some v else dictGet rest k

/-- `d[k] = v`: replace the value at the first occurrence of `k`,
or append the binding at the end, exactly as dict insertion order works. -/
def dictSet {α : Type} : List (String × α) → String → α → List (String × α)
  | [], k, v => [(k, v)]
  | (k', v') :: rest, k, v =>
    if k' = k then (k, v) :: rest else (k', v') :: dictSet rest k v

/-- `del d[k]`: remove every binding of `k` (dicts hold at most one). -/
def dictDel {α : Type} (d : List (String × α)) (k : String) : List (String × α) :=
  d.filter (fun kv => !(kv.1 = k : Bool))

/-- Sum of a function of the values, `Σ f(v) for v in d.values()`. -/
def dictSum {α : Type} (f : α → ℚ) (d : List (String × α)) : ℚ :=
  (d.map (fun kv => f kv.2)).sum

/-! ### Data model of backend/wallet_env.py -/

/-- One entry of `PaperWallet.positions` (wallet_env.py lines 31-38). -/
structure Position where
  marketId : String
  marketQuestion : String
  side : String
  shares : ℚ
  avgEntryPrice : ℚ
  totalCost : ℚ
deriving DecidableEq

/-- One entry of `PaperWallet.transaction_history`
(`_log_transaction`, wallet_env.py lines 134-145; the uuid `id` and the
wall-clock `timestamp` fields are ambient nondeterminism and omitted). -/
structure Transaction where
  marketId : String
  question : String
  action : String
  side : String
  price : ℚ
  quantity : ℚ
  pnl : ℚ
deriving DecidableEq

/-- The mutable state of a `PaperWallet` (wallet_env.py lines 7-14;
`start_time` is never read by any modelled operation and is omitted). -/
structure PaperWallet where
  cash_balance : ℚ
  initial_balance : ℚ
  positions : List (String × Position)
  transaction_history : List Transaction
deriving DecidableEq

/-- `PaperWallet.__init__(starting_balance)`. -/
def PaperWallet.init (starting_balance : ℚ) : PaperWallet :=
  { cash_balance := starting_balance
    initial_balance := starting_balance
    positions := []
    transaction_history := [] }

/-- Outcome of `PaperWallet.buy`: Python returns `False` (state untouched),
returns `True` (state updated), or raises `ZeroDivisionError` at
`amount_usd / price` — at which point the cash debit of line 26 has already
happened; the wallet carried by `zeroDiv` is that partially mutated state. -/
inductive BuyResult where
  | fail (w : PaperWallet)
  | ok (w : PaperWallet)
  | zeroDiv (w : PaperWallet)
deriving DecidableEq

/-- The wallet state after the call, whichever way `buy` exited. -/
def BuyResult.wallet : BuyResult → PaperWallet
  | BuyResult.fail w => w
  | BuyResult.ok w => w
  | BuyResult.zeroDiv w => w

/-- `PaperWallet.buy` (wallet_env.py lines 16-53). -/
def PaperWallet.buy (w : PaperWallet) (market_id question side : String)
    (price amount_usd : ℚ) : BuyResult :=
  if amount_usd > w.cash_balance then BuyResult.fail w
  else
    let cash1 := w.cash_balance - amount_usd
    if price = 0 then BuyResult.zeroDiv { w with cash_balance := cash1 }
    else
      let shares_bought := amount_usd / price
      let pos0 : Position :=
        match dictGet w.positions market_id with
        | some p => p
        | none =>
          { marketId := market_id, marketQuestion := question, side := side
            shares := 0, avgEntryPrice := 0, totalCost := 0 }
      let new_total_cost := pos0.totalCost + amount_usd
      let new_total_shares := pos0.shares + shares_bought
      let pos1 : Position :=
        { pos0 with
            shares := new_total_shares
            totalCost := new_total_cost
            avgEntryPrice :=
              if 0 < new_total_shares then new_total_cost / new_total_shares else 0 }
      BuyResult.ok
        { w with
            cash_balance := cash1
            positions := dictSet w.positions market_id pos1
            transaction_history := w.transaction_history ++
              [{ marketId := market_id, question := question, action := "BUY"
                 side := side, price := price, quantity := shares_bought, pnl := 0 }] }

/-- `PaperWallet.sell` (wallet_env.py lines 55-87).  Returns the realized
PnL together with the wallet state after the call. -/
def PaperWallet.sell (w : PaperWallet) (market_id : String) (price : ℚ)
    (shares_to_sell : Option ℚ) : ℚ × PaperWallet :=
  match dictGet w.positions market_id with
  | none => (0, w)
  | some pos =>
    let current_shares := pos.shares
    let s : ℚ :=
      match shares_to_sell with
      | none => current_shares
      | some v => if v > current_shares then current_shares else v
    let revenue := s * price
    let cost_basis := s * pos.avgEntryPrice
    let realized_pnl := revenue - cost_basis
    let pos1 : Position :=
      { pos with shares := pos.shares - s, totalCost := pos.totalCost - cost_basis }
    let positions1 :=
      if pos1.shares < 1/1000 then dictDel w.positions market_id
      else dictSet w.positions market_id pos1
    (realized_pnl,
      { w with
          cash_balance := w.cash_balance + revenue
          positions := positions1
          transaction_history := w.transaction_history ++
            [{ marketId := market_id, question := pos.marketQuestion, action := "SELL"
               side := pos.side, price := price, quantity := s, pnl := realized_pnl }] })

/-! ### Wall-clock timestamps (simulation.py get_iso_time, wallet_env.py line 106)

Python's `datetime.utcnow()` yields a naive UTC datetime with microsecond
resolution; `isoformat()` renders `YYYY-MM-DDTHH:MM:SS` and appends
`.ffffff` (six digits) exactly when the microsecond component is nonzero. -/

/-- A `datetime.datetime` value as produced by `datetime.utcnow()`. -/
structure PyDateTime where
  year : ℕ
  month : ℕ
  day : ℕ
  hour : ℕ
  minute : ℕ
  second : ℕ
  microsecond : ℕ
deriving DecidableEq

/-- The decimal digit character for `d < 10`. -/
def digitChar (d : ℕ) : Char := Char.ofNat (48 + d)

/-- Little-endian decimal digits of `n`; the first argument is fuel
(structural recursion), sufficient whenever `n ≤ fuel`. -/
def decRevAux : ℕ → ℕ → List Char
  | _, 0 => []
  | 0, _ + 1 => []
  | fuel + 1, n + 1 => digitChar ((n + 1) % 10) :: decRevAux fuel ((n + 1) / 10)

/-- Decimal rendering of a natural number, as Python's `str`. -/
def decStr (n : ℕ) : String :=
  if n = 0 then "0" else String.mk (decRevAux n n).reverse

/-- `"%0{w}d" % n`: left-pad the decimal rendering with zeros to width `w`. -/
def padNum (w n : ℕ) : String :=
  String.mk (List.replicate (w - (decStr n).length) '0') ++ decStr n

/-- `datetime.isoformat()` for a naive datetime (no timezone). -/
def PyDateTime.isoformat (t : PyDateTime) : String :=
  padNum 4 t.year ++ "-" ++ padNum 2 t.month ++ "-" ++ padNum 2 t.day ++ "T" ++
  padNum 2 t.hour ++ ":" ++ padNum 2 t.minute ++ ":" ++ padNum 2 t.second ++
  (if t.microsecond = 0 then "" else "." ++ padNum 6 t.microsecond)

/-- `get_iso_time` (simulation.py lines 36-38): `datetime.utcnow().isoformat() + "Z"`;
the same expression is inlined at wallet_env.py lines 106 and 137. -/
def get_iso_time (t : PyDateTime) : String := t.isoformat ++ "Z"

/-- The spec's "strict UTC ISO-8601 string with exactly millisecond precision
and a literal Z suffix", shape `2026-02-07T14:30:00.000Z`: 24 characters,
separators at fixed offsets, three fractional digits, digits elsewhere. -/
def strictMilliZ (s : String) : Bool :=
  decide (s.length = 24) &&
  (List.range 24).all (fun i =>
    match s.toList.get? i with
    | none => false
    | some c =>
      if i = 4 || i = 7 then c == '-'
      else if i = 10 then c == 'T'
      else if i = 13 || i = 16 then c == ':'
      else if i = 19 then c == '.'
      else if i = 23 then c == 'Z'
      else c.isDigit)

/-! ### Portfolio snapshot (wallet_env.py get_snapshot) -/

/-- Python 3 `round` rounds halves to the nearest even integer. -/
def roundHalfEven (q : ℚ) : ℤ :=
  let f := ⌊q⌋
  let r := q - f
  if r < 1/2 then f
  else if 1/2 < r then f + 1
  else if f % 2 = 0 then f else f + 1

/-- `round(x, 2)` on the exact rational model. -/
def pyRound2 (q : ℚ) : ℚ := (roundHalfEven (q * 100) : ℚ) / 100

/-- The dict returned by `PaperWallet.get_snapshot` (wallet_env.py lines 105-112). -/
structure Snapshot where
  timestamp : String
  totalValue : ℚ
  cashBalance : ℚ
  investedValue : ℚ
  dailyPnL : ℚ
  totalPnL : ℚ
deriving DecidableEq

/-- `PaperWallet.get_snapshot` (wallet_env.py lines 89-112); the wall clock
read at line 106 is the explicit `now` argument. -/
def PaperWallet.get_snapshot (w : PaperWallet)
    (current_market_prices : List (String × ℚ)) (now : PyDateTime) : Snapshot :=
  let invested_value :=
    (w.positions.map (fun kv =>
      kv.2.shares * ((dictGet current_market_prices kv.1).getD kv.2.avgEntryPrice))).sum
  let total_value := w.cash_balance + invested_value
  let total_pnl := total_value - w.initial_balance
  { timestamp := get_iso_time now
    totalValue := pyRound2 total_value
    cashBalance := pyRound2 w.cash_balance
    investedValue := pyRound2 invested_value
    dailyPnL := pyRound2 total_pnl
    totalPnL := pyRound2 total_pnl }

/-! ### Reference strategy (bot.py BotStrategy.analyze_market) -/

/-- Python `int()` applied to a non-integer number truncates toward zero. -/
def pyInt (q : ℚ) : ℤ := Int.tdiv q.num q.den

/-- `BotStrategy.__init__` state (bot.py lines 30-37); `id` and `win_rate`
are ambient randomness unused by `analyze_market` and omitted. -/
structure BotStrategy where
  name : String
  risk_tolerance : ℚ
  preferred_categories : List String

/-- The decision dict returned by `analyze_market` (bot.py lines 69-74). -/
structure StratDecision where
  action : String
  confidence : ℤ
  reasoning : String
  side : String
deriving DecidableEq

/-- `BotStrategy.analyze_market` (bot.py lines 39-74).  The only market field
read is `market.get("category", "other")`, passed here as `category`; the
draw `random.random()` is `score_draw`, the side draw is `side_draw`, and the
`random.choice` picks from the reason pools are `buy_reason` / `sell_reason`. -/
def BotStrategy.analyze_market (b : BotStrategy) (category : String)
    (score_draw side_draw : ℚ) (buy_reason sell_reason : String) : StratDecision :=
  let score :=
    if b.preferred_categories.contains category then score_draw + 15/100 else score_draw
  let threshold_buy := 8/10 - b.risk_tolerance * (2/10)
  let threshold_sell : ℚ := 3/10
  let confidence := pyInt (score * 100)
  let side := if side_draw > 4/10 then "YES" else "NO"
  if score > threshold_buy then
    ⟨"BUY", confidence, buy_reason, side⟩
  else if score < threshold_sell then
    ⟨"SELL", confidence, sell_reason, side⟩
  else
    ⟨"HOLD", confidence, "Marché en observation. Pas de signal clair.", side⟩

/-! ### Server strategy (backend/bot_brain.py) and tick execution
(backend/simulation.py lines 105-126); backend/main.py line 60 wires a
`BotBrain` instance into the tick endpoint. -/

/-- The decision dict returned by `BotBrain.decide`: the `"side"` key is
absent on the HOLD path, hence an `Option`. -/
structure BrainDecision where
  action : String
  confidence : ℤ
  reasoning : String
  side : Option String
deriving DecidableEq

/-- `BotBrain.decide` (bot_brain.py lines 7-27).  `trade_draw` is the first
`random.random()` (HOLD when `< 0.90`), `side_draw` the second, `conf_draw`
the `random.randint(70, 95)` and `reason` the `random.choice` pick. -/
def BotBrain.decide (trade_draw side_draw : ℚ) (conf_draw : ℤ)
    (reason : String) : BrainDecision :=
  if trade_draw < 90/100 then
    ⟨"HOLD", 0, "Waiting for signal", none⟩
  else
    ⟨"BUY", conf_draw, reason, some (if side_draw > 1/2 then "YES" else "NO")⟩

/-- How a tick records the execution step (simulation.py lines 101-125):
`was_executed` and `execution_result` of the persisted decision record, and
whether a TRADE_EXECUTED event is appended (which happens only `if success`). -/
structure ExecRecord where
  was_executed : ℕ
  execution_result : Option String
  trade_event : Bool
deriving DecidableEq

/-- The SELL branch of the tick orchestrator (simulation.py lines 117-125):
`pnl = wallet.sell(market_id, price)`, `success = pnl != 0`,
`execution_result = "success" if success else "no_position"`. -/
def sellBranch (w : PaperWallet) (market_id : String) (price : ℚ) :
    ExecRecord × PaperWallet :=
  let r := w.sell market_id price none
  if r.1 ≠ 0 then (⟨1, some "success", true⟩, r.2)
  else (⟨0, some "no_position", false⟩, r.2)

/-- The execution step of one tick (simulation.py lines 105-126) for a
`BotBrain` decision: BUY applies `wallet.buy` with the fixed $50 stake,
SELL runs `sellBranch`, anything else leaves the wallet untouched with
`was_executed = 0` and `execution_result = None`. -/
def execDecision (w : PaperWallet) (d : BrainDecision)
    (market_id question : String) (price : ℚ) : ExecRecord × PaperWallet :=
  if d.action = "BUY" then
    match w.buy market_id question (d.side.getD "") price 50 with
    | BuyResult.ok w' => (⟨1, some "success", true⟩, w')
    | BuyResult.fail w' => (⟨0, some "insufficient_funds", false⟩, w')
    | BuyResult.zeroDiv w' => (⟨0, none, false⟩, w')
  else if d.action = "SELL" then sellBranch w market_id price
  else (⟨0, none, false⟩, w)

/-! ### Call traces over the wallet, for the conservation claim -/

/-- One external call on the ledger. -/
inductive Op where
  | buy (market_id question side : String) (price amount : ℚ)
  | sell (market_id : String) (price : ℚ) (shares : Option ℚ)

/-- Run a sequence of buy/sell calls, collecting the final wallet and the
sum of the realized PnL returned by every sell.  A `ZeroDivisionError`
raised inside a buy propagates: no further call runs. -/
def runOps : PaperWallet → List Op → PaperWallet × ℚ
  | w, [] => (w, 0)
  | w, Op.buy m q sd pr amt :: rest =>
    match w.buy m q sd pr amt with
    | BuyResult.zeroDiv w' => (w', 0)
    | BuyResult.fail w' => runOps w' rest
    | BuyResult.ok w' => runOps w' rest
  | w, Op.sell m pr s :: rest =>
    let r := w.sell m pr s
    let rec' := runOps r.2 rest
    (rec'.1, r.1 + rec'.2)

/-- Σ shares × avgEntryPrice over the open positions. -/
def invested (w : PaperWallet) : ℚ :=
  dictSum (fun p => p.shares * p.avgEntryPrice) w.positions

/-- The sell precondition under which no value is destroyed: a requested
share count is nonnegative, and the sale does not strand a dust residue —
it leaves the position either empty or at or above the 0.001 threshold
(wallet_env.py line 82 deletes any position below it, shares and all). -/
def sellOk (w : PaperWallet) (market_id : String) (shares_to_sell : Option ℚ) : Bool :=
  (match shares_to_sell with
   | none => true
   | some v => decide (0 ≤ v)) &&
  (match dictGet w.positions market_id with
   | none => true
   | some pos =>
     let s : ℚ :=
       match shares_to_sell with
       | none => pos.shares
       | some v => if v > pos.shares then pos.shares else v
     decide (pos.shares - s ≤ 0) || decide (1/1000 ≤ pos.shares - s))

/-- A trace is good when every buy uses a positive price and amount (so no
`ZeroDivisionError` and no degenerate short position) and every sell
satisfies `sellOk` in the state where it runs. -/
def goodOps : PaperWallet → List Op → Bool
  | _, [] => true
  | w, Op.buy m q sd pr amt :: rest =>
    decide (0 < pr) && decide (0 < amt) &&
      goodOps (w.buy m q sd pr amt).wallet rest
  | w, Op.sell m pr s :: rest =>
    sellOk w m s && goodOps (w.sell m pr s).2 rest

/-- Internal well-formedness of a wallet's position map: keys are unique
(it models a dict) and every open position has positive shares, a positive
average entry price and `totalCost = shares × avgEntryPrice` — all
established by the ledger itself along good traces. -/
def PaperWallet.wf (w : PaperWallet) : Prop :=
  (w.positions.map Prod.fst).Nodup ∧
  ∀ kv ∈ w.positions,
    0 < kv.2.shares ∧ 0 < kv.2.avgEntryPrice ∧
    kv.2.totalCost = kv.2.shares * kv.2.avgEntryPrice

/-! ### Concrete states used to instantiate the claims -/

/-- Spec §8 scenario, run as a call trace: deposit 1000, spend $100 on
market X at price 0.40, then liquidate at price 0.50. -/
def scenarioOps : List Op :=
  [Op.buy "X" "q" "YES" (2/5) 100, Op.sell "X" (1/2) none]

/-- A wallet used to instantiate the fresh-then-merge weighted average. -/
def c3w0 : PaperWallet := PaperWallet.init 1000

def c3w1 : PaperWallet := (c3w0.buy "X" "q" "YES" (2/5) (250 * (2/5))).wallet

def c3w2 : PaperWallet := (c3w1.buy "X" "q" "YES" (1/2) (100 * (1/2))).wallet

/-- A wallet holding 250 shares of market X at average entry price 0.40. -/
def c4pos : Position := ⟨"X", "q", "YES", 250, 2/5, 100⟩

def c4w : PaperWallet := ⟨900, 1000, [("X", c4pos)], []⟩

/-- A wallet holding 100 shares of market m1 at average entry price 0.50 —
selling at the market price 0.50 realizes exactly zero PnL. -/
def c5pos : Position := ⟨"m1", "q", "YES", 100, 1/2, 50⟩

def c5w : PaperWallet := ⟨500, 1000, [("m1", c5pos)], []⟩

/-- Two clock readings one second apart. -/
def c6t1 : PyDateTime := ⟨2026, 2, 7, 14, 30, 0, 0⟩

def c6t2 : PyDateTime := ⟨2026, 2, 7, 14, 30, 1, 0⟩

/-- A wall-clock instant whose microsecond component is nonzero, as almost
every call of `datetime.utcnow()` returns. -/
def c7t : PyDateTime := ⟨2026, 2, 7, 14, 30, 0, 123456⟩

/-- A strategy with risk tolerance 0.5 that prefers the crypto category. -/
def c8strat : BotStrategy := ⟨"TestBot", 1/2, ["crypto"]⟩

/-- A wallet with an open position on market m1, for the liquidation claim. -/
def c10w : PaperWallet := ⟨500, 1000, [("m1", ⟨"m1", "q", "YES", 100, 1/2, 50⟩)], []⟩

/-! ### Lemmas about the dict model -/

theorem dictGet_set_self {α : Type} (d : List (String × α)) (k : String) (v : α) :
    dictGet (dictSet d k v) k = some v := by
  induction d with
  | nil => simp [dictSet, dictGet]
  | cons kv rest ih =>
    obtain ⟨k', v'⟩ := kv
    by_cases h : k' = k
    · simp [dictSet, dictGet, h]
    · simp [dictSet, dictGet, h, ih]

theorem dictGet_set_ne {α : Type} (d : List (String × α)) {k' k : String} (v : α)
    (h : k' ≠ k) : dictGet (dictSet d k' v) k = dictGet d k := by
  induction d with
  | nil => simp [dictSet, dictGet, h]
  | cons kv rest ih =>
    obtain ⟨k0, v0⟩ := kv
    by_cases h0 : k0 = k'
    · simp [dictSet, dictGet, h0, h]
    · simp only [dictSet, h0, if_false]
      by_cases h1 : k0 = k <;> simp [dictGet, h1, ih]

theorem dictGet_del_self {α : Type} (d : List (String × α)) (k : String) :
    dictGet (dictDel d k) k = none := by
  induction d with
  | nil => simp [dictDel, dictGet]
  | cons kv rest ih =>
    obtain ⟨k0, v0⟩ := kv
    by_cases h0 : k0 = k
    · simpa [dictDel, dictGet, h0] using ih
    · simpa [dictDel, dictGet, h0] using ih

theorem dictGet_mem {α : Type} {d : List (String × α)} {k : String} {v : α}
    (h : dictGet d k = some v) : (k, v) ∈ d := by
  induction d with
  | nil => simp [dictGet] at h
  | cons kv rest ih =>
    obtain ⟨k0, v0⟩ := kv
    by_cases h0 : k0 = k
    · simp [dictGet, h0] at h
      simp [h0, h]
    · simp only [dictGet, h0, if_false] at h
      exact List.mem_cons_of_mem _ (ih h)

theorem mem_dictSet {α : Type} {d : List (String × α)} {k : String} {v : α} {kv : String × α}
    (h : kv ∈ dictSet d k v) : kv ∈ d ∨ kv = (k, v) := by
  induction d with
  | nil => simp [dictSet] at h; simp [h]
  | cons kv0 rest ih =>
    obtain ⟨k0, v0⟩ := kv0
    by_cases h0 : k0 = k
    · simp [dictSet, h0] at h
      rcases h with h | h
      · exact Or.inr h
      · exact Or.inl (List.mem_cons_of_mem _ h)
    · simp only [dictSet, h0, if_false, List.mem_cons] at h
      rcases h with h | h
      · exact Or.inl (by simp [h])
      · rcases ih h with h1 | h1
        · exact Or.inl (List.mem_cons_of_mem _ h1)
        · exact Or.inr h1

theorem mem_dictDel {α : Type} {d : List (String × α)} {k : String} {kv : String × α}
    (h : kv ∈ dictDel d k) : kv ∈ d :=
  List.mem_of_mem_filter h

theorem mem_keys_set {α : Type} {d : List (String × α)} {k a : String} {v : α}
    (h : a ∈ (dictSet d k v).map Prod.fst) : a ∈ d.map Prod.fst ∨ a = k := by
  simp only [List.mem_map] at h
  obtain ⟨kv, hkv, rfl⟩ := h
  rcases mem_dictSet hkv with h1 | h1
  · exact Or.inl (List.mem_map_of_mem _ h1)
  · simp [h1]

theorem nodup_keys_set {α : Type} {d : List (String × α)} (k : String) (v : α)
    (h : (d.map Prod.fst).Nodup) : ((dictSet d k v).map Prod.fst).Nodup := by
  induction d with
  | nil => simp [dictSet]
  | cons kv0 rest ih =>
    obtain ⟨k0, v0⟩ := kv0
    simp only [List.map_cons, List.nodup_cons] at h
    by_cases h0 : k0 = k
    · simpa [dictSet, h0] using h
    · simp only [dictSet, h0, if_false, List.map_cons, List.nodup_cons]
      refine ⟨fun hmem => ?_, ih h.2⟩
      rcases mem_keys_set hmem with h1 | h1
      · exact h.1 h1
      · exact h0 h1

theorem nodup_keys_del {α : Type} {d : List (String × α)} (k : String)
    (h : (d.map Prod.fst).Nodup) : ((dictDel d k).map Prod.fst).Nodup :=
  ((List.filter_sublist d).map Prod.fst).nodup h

theorem dictDel_eq_self {α : Type} {d : List (String × α)} {k : String}
    (h : k ∉ d.map Prod.fst) : dictDel d k = d := by
  induction d with
  | nil => rfl
  | cons kv0 rest ih =>
    obtain ⟨k0, v0⟩ := kv0
    simp only [List.map_cons, List.mem_cons] at h
    push_neg at h
    have h1 : k0 ≠ k := fun e => h.1 e.symm
    simp only [dictDel] at ih ⊢
    simp [List.filter_cons, h1, ih h.2]

theorem dictSum_set_none {α : Type} (f : α → ℚ) {d : List (String × α)} {k : String}
    (v : α) (h : dictGet d k = none) :
    dictSum f (dictSet d k v) = dictSum f d + f v := by
  induction d with
  | nil => simp [dictSet, dictSum]
  | cons kv0 rest ih =>
    obtain ⟨k0, v0⟩ := kv0
    by_cases h0 : k0 = k
    · simp [dictGet, h0] at h
    · simp only [dictGet, h0, if_false] at h
      simp only [dictSet, h0, if_false, dictSum, List.map_cons, List.sum_cons] at ih ⊢
      rw [ih h]; ring

theorem dictSum_set_some {α : Type} (f : α → ℚ) {d : List (String × α)} {k : String}
    {v0 : α} (v : α) (h : dictGet d k = some v0) :
    dictSum f (dictSet d k v) = dictSum f d - f v0 + f v := by
  induction d with
  | nil => simp [dictGet] at h
  | cons kv1 rest ih =>
    obtain ⟨k1, v1⟩ := kv1
    by_cases h1 : k1 = k
    · simp only [dictGet, h1, if_true] at h
      obtain rfl : v1 = v0 := by simpa using h
      simp only [dictSet, h1, if_true, dictSum, List.map_cons, List.sum_cons]
      ring
    · simp only [dictGet, h1, if_false] at h
      simp only [dictSet, h1, if_false, dictSum, List.map_cons, List.sum_cons] at ih ⊢
      rw [ih h]; ring

theorem dictSum_del {α : Type} (f : α → ℚ) {d : List (String × α)} {k : String}
    {v0 : α} (hnd : (d.map Prod.fst).Nodup) (h : dictGet d k = some v0) :
    dictSum f (dictDel d k) = dictSum f d - f v0 := by
  induction d with
  | nil => simp [dictGet] at h
  | cons kv1 rest ih =>
    obtain ⟨k1, v1⟩ := kv1
    simp only [List.map_cons, List.nodup_cons] at hnd
    by_cases h1 : k1 = k
    · simp only [dictGet, h1, if_true] at h
      have hv : v1 = v0 := by simpa using h
      subst h1
      have hdel : dictDel ((k1, v1) :: rest) k1 = dictDel rest k1 := by
        simp [dictDel, List.filter_cons]
      rw [hdel, dictDel_eq_self hnd.1]
      simp [dictSum, hv]
    · simp only [dictGet, h1, if_false] at h
      have hdel : dictDel ((k1, v1) :: rest) k = (k1, v1) :: dictDel rest k := by
        simp [dictDel, List.filter_cons, h1]
      rw [hdel]
      simp only [dictSum, List.map_cons, List.sum_cons] at ih ⊢
      rw [ih hnd.2 h]; ring

/-! ### Ledger step lemmas for the conservation invariant -/

theorem buy_ne_zeroDiv (w : PaperWallet) (m q sd : String) {pr : ℚ} (amt : ℚ)
    (hpr : pr ≠ 0) (w' : PaperWallet) : w.buy m q sd pr amt ≠ BuyResult.zeroDiv w' := by
  unfold PaperWallet.buy
  by_cases hc : amt > w.cash_balance <;> simp [hc, hpr]

theorem buy_preserves (w : PaperWallet) (m q sd : String) {pr amt : ℚ}
    (hw : w.wf) (hpr : 0 < pr) (hamt : 0 < amt) :
    ((w.buy m q sd pr amt).wallet).wf ∧
    ((w.buy m q sd pr amt).wallet).cash_balance + invested ((w.buy m q sd pr amt).wallet)
      = w.cash_balance + invested w := by
  by_cases hc : amt > w.cash_balance
  · simp only [PaperWallet.buy, hc, if_true, BuyResult.wallet]
    exact ⟨hw, trivial⟩
  · have hpr0 : ¬ pr = 0 := ne_of_gt hpr
    rcases hget : dictGet w.positions m with _ | p0
    · -- first buy of this market id: a fresh position is created
      have hsh : (0:ℚ) < amt / pr := div_pos hamt hpr
      have havg : amt / (amt / pr) = pr := by
        rw [div_div_eq_mul_div, mul_comm, mul_div_assoc, div_self (ne_of_gt hamt), mul_one]
      have hval : amt / pr * (amt / (amt / pr)) = amt := by
        rw [havg]; exact div_mul_cancel₀ amt hpr0
      simp only [PaperWallet.buy, hc, hpr0, hget, zero_add, hsh, if_true, if_false,
        ite_true, ite_false, BuyResult.wallet]
      constructor
      · constructor
        · exact nodup_keys_set m _ hw.1
        · intro kv hkv
          rcases mem_dictSet hkv with h1 | h1
          · exact hw.2 kv h1
          · subst h1
            refine ⟨hsh, ?_, ?_⟩
            · rw [havg]; exact hpr
            · exact hval.symm
      · simp only [invested, dictSum_set_none _ _ hget]
        rw [hval]; ring
    · -- repeated buy: weighted-average merge into the existing position
      obtain ⟨hp0s, hp0a, hp0t⟩ := hw.2 (m, p0) (dictGet_mem hget)
      have hsh1 : (0:ℚ) < p0.shares + amt / pr := add_pos hp0s (div_pos hamt hpr)
      have htc1 : (0:ℚ) < p0.totalCost + amt := by
        rw [hp0t]; exact add_pos (mul_pos hp0s hp0a) hamt
      have hval : (p0.shares + amt / pr) * ((p0.totalCost + amt) / (p0.shares + amt / pr))
          = p0.totalCost + amt := by
        rw [mul_comm]; exact div_mul_cancel₀ _ (ne_of_gt hsh1)
      simp only [PaperWallet.buy, hc, hpr0, hget, hsh1, if_true, if_false,
        ite_true, ite_false, BuyResult.wallet]
      constructor
      · constructor
        · exact nodup_keys_set m _ hw.1
        · intro kv hkv
          rcases mem_dictSet hkv with h1 | h1
          · exact hw.2 kv h1
          · subst h1
            exact ⟨hsh1, div_pos htc1 hsh1, hval.symm⟩
      · simp only [invested, dictSum_set_some _ _ hget]
        rw [hval, ← hp0t]; ring

theorem sell_preserves (w : PaperWallet) (m : String) (pr : ℚ) (sOpt : Option ℚ)
    (hw : w.wf) (hok : sellOk w m sOpt = true) :
    ((w.sell m pr sOpt).2).wf ∧
    ((w.sell m pr sOpt).2).cash_balance + invested ((w.sell m pr sOpt).2)
      = w.cash_balance + invested w + (w.sell m pr sOpt).1 := by
  rcases hget : dictGet w.positions m with _ | pos
  · simp only [PaperWallet.sell, hget]
    exact ⟨hw, by ring⟩
  · obtain ⟨hps, hpa, hpt⟩ := hw.2 (m, pos) (dictGet_mem hget)
    have hps : 0 < pos.shares := hps
    have hpa : 0 < pos.avgEntryPrice := hpa
    have hpt : pos.totalCost = pos.shares * pos.avgEntryPrice := hpt
    have h1000 : (0:ℚ) < 1/1000 := by norm_num
    rcases sOpt with _ | v
    · -- omitted share count: full liquidation, the position is deleted
      simp only [PaperWallet.sell, hget, sub_self, h1000, if_true, ite_true]
      refine ⟨⟨nodup_keys_del _ hw.1, fun kv hkv => hw.2 kv (mem_dictDel hkv)⟩, ?_⟩
      simp only [invested, dictSum_del _ hw.1 hget]
      ring
    · -- explicit share count
      by_cases hvgt : v > pos.shares
      · -- more than held: clamped to the full holding, position deleted
        simp only [PaperWallet.sell, hget, hvgt, if_true, ite_true, sub_self, h1000]
        refine ⟨⟨nodup_keys_del _ hw.1, fun kv hkv => hw.2 kv (mem_dictDel hkv)⟩, ?_⟩
        simp only [invested, dictSum_del _ hw.1 hget]
        ring
      · simp only [sellOk, hget, hvgt, if_false, ite_false, Bool.and_eq_true,
          Bool.or_eq_true, decide_eq_true_eq] at hok
        by_cases hdel : pos.shares - v < 1/1000
        · -- a sub-dust remainder: with `sellOk` it must in fact be zero
          have hle : pos.shares - v ≤ 0 := by
            rcases hok.2 with h | h
            · exact h
            · exact absurd hdel (not_lt.mpr h)
          have hveq : v = pos.shares :=
            le_antisymm (not_lt.mp hvgt) (by linarith)
          subst hveq
          simp only [PaperWallet.sell, hget, lt_irrefl, if_false, ite_false, sub_self,
            h1000, if_true, ite_true]
          refine ⟨⟨nodup_keys_del _ hw.1, fun kv hkv => hw.2 kv (mem_dictDel hkv)⟩, ?_⟩
          simp only [invested, dictSum_del _ hw.1 hget]
          ring
        · -- partial sale with a surviving position
          have hrem : 1/1000 ≤ pos.shares - v := not_lt.mp hdel
          simp only [PaperWallet.sell, hget, hvgt, if_false, ite_false, hdel]
          constructor
          · refine ⟨nodup_keys_set m _ hw.1, ?_⟩
            intro kv hkv
            rcases mem_dictSet hkv with h1 | h1
            · exact hw.2 kv h1
            · subst h1
              refine ⟨?_, hpa, ?_⟩
              · show (0:ℚ) < pos.shares - v
                linarith
              · show pos.totalCost - v * pos.avgEntryPrice
                    = (pos.shares - v) * pos.avgEntryPrice
                rw [hpt]; ring
          · simp only [invested, dictSum_set_some _ _ hget]
            ring

theorem runOps_conserve (ops : List Op) : ∀ (w : PaperWallet), w.wf → goodOps w ops = true →
    ((runOps w ops).1).wf ∧
    (runOps w ops).1.cash_balance + invested (runOps w ops).1
      = w.cash_balance + invested w + (runOps w ops).2 := by
  induction ops with
  | nil =>
    intro w hw _
    exact ⟨hw, by simp [runOps]⟩
  | cons op rest ih =>
    intro w hw hg
    cases op with
    | buy m q sd pr amt =>
      simp only [goodOps, Bool.and_eq_true, decide_eq_true_eq] at hg
      obtain ⟨⟨hpr, hamt⟩, hgrest⟩ := hg
      have hb := buy_preserves w m q sd hw hpr hamt
      rcases hres : w.buy m q sd pr amt with w' | w' | w'
      · rw [hres] at hb hgrest
        simp only [BuyResult.wallet] at hb hgrest
        have hrec := ih w' hb.1 hgrest
        simp only [runOps, hres]
        exact ⟨hrec.1, by rw [hrec.2, hb.2]⟩
      · rw [hres] at hb hgrest
        simp only [BuyResult.wallet] at hb hgrest
        have hrec := ih w' hb.1 hgrest
        simp only [runOps, hres]
        exact ⟨hrec.1, by rw [hrec.2, hb.2]⟩
      · exact absurd hres (buy_ne_zeroDiv w m q sd amt (ne_of_gt hpr) w')
    | sell m pr s =>
      simp only [goodOps, Bool.and_eq_true] at hg
      obtain ⟨hok, hgrest⟩ := hg
      have hs := sell_preserves w m pr s hw hok
      have hrec := ih (w.sell m pr s).2 hs.1 hgrest
      simp only [runOps]
      exact ⟨hrec.1, by rw [hrec.2, hs.2]; ring⟩

/-! ### Length facts about the rendered timestamps -/

theorem decRevAux_length_le (fuel : ℕ) :
    ∀ (wd n : ℕ), n < 10 ^ wd → (decRevAux fuel n).length ≤ wd := by
  induction fuel with
  | zero =>
    intro wd n _
    cases n <;> simp [decRevAux]
  | succ fuel ih =>
    intro wd n hn
    cases n with
    | zero => simp [decRevAux]
    | succ k =>
      cases wd with
      | zero => exact absurd hn (by simp)
      | succ wd =>
        have hdiv : (k + 1) / 10 < 10 ^ wd := by
          refine (Nat.div_lt_iff_lt_mul (by norm_num)).mpr ?_
          calc k + 1 < 10 ^ (wd + 1) := hn
            _ = 10 ^ wd * 10 := pow_succ 10 wd
        simpa [decRevAux] using Nat.succ_le_succ (ih wd ((k + 1) / 10) hdiv)

theorem decStr_length_le (wd n : ℕ) (hw : 1 ≤ wd) (hn : n < 10 ^ wd) :
    (decStr n).length ≤ wd := by
  by_cases h0 : n = 0
  · simpa [decStr, h0] using hw
  · simpa [decStr, h0] using decRevAux_length_le n wd n hn

theorem padNum_length (wd n : ℕ) (hw : 1 ≤ wd) (hn : n < 10 ^ wd) :
    (padNum wd n).length = wd := by
  have h := decStr_length_le wd n hw hn
  have hmk : (String.mk (List.replicate (wd - (decStr n).length) '0')).length
      = wd - (decStr n).length := by
    show (List.replicate (wd - (decStr n).length) '0').length = _
    exact List.length_replicate _ _
  simp only [padNum, String.length_append, hmk]
  omega

theorem get_iso_time_length (t : PyDateTime)
    (hy : t.year < 10 ^ 4) (hmo : t.month < 10 ^ 2) (hd : t.day < 10 ^ 2)
    (hh : t.hour < 10 ^ 2) (hmi : t.minute < 10 ^ 2) (hs : t.second < 10 ^ 2)
    (hus : t.microsecond < 10 ^ 6) :
    (get_iso_time t).length = if t.microsecond = 0 then 20 else 27 := by
  have e1 := padNum_length 4 t.year (by norm_num) hy
  have e2 := padNum_length 2 t.month (by norm_num) hmo
  have e3 := padNum_length 2 t.day (by norm_num) hd
  have e4 := padNum_length 2 t.hour (by norm_num) hh
  have e5 := padNum_length 2 t.minute (by norm_num) hmi
  have e6 := padNum_length 2 t.second (by norm_num) hs
  have e7 := padNum_length 6 t.microsecond (by norm_num) hus
  have sep1 : ("-" : String).length = 1 := rfl
  have sep2 : ("T" : String).length = 1 := rfl
  have sep3 : (":" : String).length = 1 := rfl
  have sep4 : ("." : String).length = 1 := rfl
  have sep5 : ("Z" : String).length = 1 := rfl
  have sep6 : ("" : String).length = 0 := rfl
  by_cases h0 : t.microsecond = 0 <;>
    simp [get_iso_time, PyDateTime.isoformat, String.length_append, h0,
      e1, e2, e3, e4, e5, e6, e7, sep1, sep2, sep3, sep4, sep5, sep6]

/-! ### Characterizations of single ledger calls -/

theorem pyInt_eq_floor {q : ℚ} (h : 0 ≤ q) : pyInt q = ⌊q⌋ := by
  rw [pyInt, Rat.floor_def, Int.tdiv_eq_ediv (Rat.num_nonneg.mpr h) (Int.natCast_nonneg q.den)]

theorem dictGet_set_isSome {α : Type} (d : List (String × α)) (k' k : String) (v : α)
    (h : dictGet d k ≠ none) : dictGet (dictSet d k' v) k ≠ none := by
  by_cases hk : k' = k
  · subst hk; simp [dictGet_set_self]
  · rw [dictGet_set_ne d v hk]; exact h

theorem buy_keeps_position (w : PaperWallet) (m q sd : String) (pr amt : ℚ) (k : String)
    (h : dictGet w.positions k ≠ none) :
    dictGet ((w.buy m q sd pr amt).wallet).positions k ≠ none := by
  unfold PaperWallet.buy
  by_cases hc : amt > w.cash_balance
  · simpa [hc, BuyResult.wallet] using h
  · by_cases hp : pr = 0
    · simpa [hc, hp, BuyResult.wallet] using h
    · simp only [hc, hp, if_false, ite_false, BuyResult.wallet]
      exact dictGet_set_isSome _ _ _ _ h

theorem buy_fresh (w : PaperWallet) (m q sd : String) {pr amt : ℚ}
    (h0 : dictGet w.positions m = none) (hc : amt ≤ w.cash_balance) (hp : pr ≠ 0) :
    ((w.buy m q sd pr amt).wallet).cash_balance = w.cash_balance - amt ∧
    dictGet ((w.buy m q sd pr amt).wallet).positions m = some
      ⟨m, q, sd, amt / pr, if 0 < amt / pr then amt / (amt / pr) else 0, amt⟩ := by
  have hnc : ¬ amt > w.cash_balance := not_lt.mpr hc
  simp only [PaperWallet.buy, hnc, hp, if_false, ite_false, h0, zero_add,
    BuyResult.wallet]
  exact ⟨trivial, dictGet_set_self _ _ _⟩

theorem buy_merge (w : PaperWallet) (m q sd : String) {pr amt : ℚ} {p0 : Position}
    (h0 : dictGet w.positions m = some p0) (hc : amt ≤ w.cash_balance) (hp : pr ≠ 0) :
    dictGet ((w.buy m q sd pr amt).wallet).positions m = some
      { p0 with
          shares := p0.shares + amt / pr
          totalCost := p0.totalCost + amt
          avgEntryPrice :=
            if 0 < p0.shares + amt / pr
            then (p0.totalCost + amt) / (p0.shares + amt / pr) else 0 } := by
  have hnc : ¬ amt > w.cash_balance := not_lt.mpr hc
  simp only [PaperWallet.buy, hnc, hp, if_false, ite_false, h0, BuyResult.wallet]
  exact dictGet_set_self _ _ _

/-! ### The claims -/

/-- C2: a buy whose `amountUsd` exceeds `cashBalance` returns failure and
leaves the wallet exactly unchanged, and consequently no call of `buy` ever
takes a nonnegative `cashBalance` below zero, whichever way it exits. -/
theorem c2_no_negative_cash (w : PaperWallet) (m q sd : String) (pr amt : ℚ) :
    (amt > w.cash_balance → w.buy m q sd pr amt = BuyResult.fail w) ∧
    (0 ≤ w.cash_balance → 0 ≤ ((w.buy m q sd pr amt).wallet).cash_balance) := by
  constructor
  · intro hc
    simp [PaperWallet.buy, hc]
  · intro h0
    unfold PaperWallet.buy
    by_cases hc : amt > w.cash_balance
    · simpa [hc, BuyResult.wallet] using h0
    · have hle : amt ≤ w.cash_balance := not_lt.mp hc
      by_cases hp : pr = 0 <;>
        simp [hc, hp, BuyResult.wallet] <;> linarith

/-- Witness for C2: a $10 buy against a $5 balance fails and changes
nothing, and the resulting cash balance is still nonnegative. -/
theorem c2_no_negative_cash_witness :
    (PaperWallet.init 5).buy "m" "q" "YES" (1/2) 10 = BuyResult.fail (PaperWallet.init 5) ∧
    0 ≤ (((PaperWallet.init 5).buy "m" "q" "YES" (1/2) 10).wallet).cash_balance :=
  ⟨(c2_no_negative_cash (PaperWallet.init 5) "m" "q" "YES" (1/2) 10).1
      (by norm_num [PaperWallet.init]),
   (c2_no_negative_cash (PaperWallet.init 5) "m" "q" "YES" (1/2) 10).2
      (by norm_num [PaperWallet.init])⟩

/-- C9: with `price = 0` and an affordable positive `amountUsd`, `buy`
raises `ZeroDivisionError` after the cash debit, leaving the wallet
partially mutated — cash reduced by `amountUsd`, positions and transaction
log untouched; with any nonzero price the division never raises. -/
theorem c9_zero_price_buy (w : PaperWallet) (m q sd : String) (amt : ℚ)
    (hpos : 0 < amt) (hle : amt ≤ w.cash_balance) :
    w.buy m q sd 0 amt
        = BuyResult.zeroDiv
            ⟨w.cash_balance - amt, w.initial_balance, w.positions, w.transaction_history⟩ ∧
    ∀ (pr : ℚ), pr ≠ 0 → ∀ w', w.buy m q sd pr amt ≠ BuyResult.zeroDiv w' := by
  constructor
  · have hnc : ¬ amt > w.cash_balance := not_lt.mpr hle
    simp [PaperWallet.buy, hnc]
  · intro pr hpr w'
    exact buy_ne_zeroDiv w m q sd amt hpr w'

/-- Witness for C9: a $40 buy at price 0 against a $100 balance raises with
the cash already debited to $60, while the same buy at price 0.5 does not
raise. -/
theorem c9_zero_price_buy_witness :
    (PaperWallet.init 100).buy "m" "q" "YES" 0 40 = BuyResult.zeroDiv ⟨60, 100, [], []⟩ ∧
    (PaperWallet.init 100).buy "m" "q" "YES" (1/2) 40
      ≠ BuyResult.zeroDiv (PaperWallet.init 100) := by
  have h := c9_zero_price_buy (PaperWallet.init 100) "m" "q" "YES" 40 (by norm_num)
    (by norm_num [PaperWallet.init])
  constructor
  · rw [h.1]
    norm_num [PaperWallet.init]
  · exact h.2 (1/2) (by norm_num) (PaperWallet.init 100)

/-- C4: with an open position, a sell whose share count is omitted or
exceeds the holding liquidates everything — the full proceeds are credited
and the position is removed from the map — and any subsequent sell on that
market returns realized PnL 0 and leaves the wallet completely unchanged. -/
theorem c4_full_liquidation (w : PaperWallet) (m : String) (p : ℚ) (pos : Position)
    (sOpt : Option ℚ) (hpos : dictGet w.positions m = some pos)
    (hcase : sOpt = none ∨ ∃ v, sOpt = some v ∧ v > pos.shares) :
    ((w.sell m p sOpt).2).cash_balance = w.cash_balance + pos.shares * p ∧
    dictGet ((w.sell m p sOpt).2).positions m = none ∧
    ∀ (p2 : ℚ) (s2 : Option ℚ),
      ((w.sell m p sOpt).2).sell m p2 s2 = (0, (w.sell m p sOpt).2) := by
  have h1000 : (0:ℚ) < 1/1000 := by norm_num
  rcases hcase with hnone | ⟨v, hv, hvgt⟩
  · subst hnone
    simp only [PaperWallet.sell, hpos, sub_self, h1000, if_true, ite_true]
    refine ⟨trivial, dictGet_del_self _ _, ?_⟩
    intro p2 s2
    simp [PaperWallet.sell, dictGet_del_self]
  · subst hv
    simp only [PaperWallet.sell, hpos, hvgt, if_true, ite_true, sub_self, h1000]
    refine ⟨trivial, dictGet_del_self _ _, ?_⟩
    intro p2 s2
    simp [PaperWallet.sell, dictGet_del_self]

/-- Witness for C4: liquidating the 250-share position of the scenario
wallet at price 0.5 credits 125, removes the position, and a repeated sell
is a no-op returning 0. -/
theorem c4_full_liquidation_witness :
    ((c4w.sell "X" (1/2) none).2).cash_balance = c4w.cash_balance + c4pos.shares * (1/2) ∧
    dictGet ((c4w.sell "X" (1/2) none).2).positions "X" = none ∧
    ((c4w.sell "X" (1/2) none).2).sell "X" (3/4) (some 5) = (0, (c4w.sell "X" (1/2) none).2) := by
  have h := c4_full_liquidation c4w "X" (1/2) c4pos none
    (by simp [c4w, c4pos, dictGet]) (Or.inl rfl)
  exact ⟨h.1, h.2.1, h.2.2 (3/4) (some 5)⟩

/-- C3: two successive successful buys into a fresh instrument, acquiring
`s1` shares at price `p1` (spending `s1·p1`) and then `s2` shares at price
`p2` (spending `s2·p2`), leave a position whose average entry price is the
weighted average `(s1·p1 + s2·p2) / (s1 + s2)`. -/
theorem c3_weighted_average (w : PaperWallet) (m q sd : String) (p1 p2 s1 s2 : ℚ)
    (h0 : dictGet w.positions m = none)
    (hp1 : p1 ≠ 0) (hp2 : p2 ≠ 0) (hs : 0 < s1 + s2)
    (hc1 : s1 * p1 ≤ w.cash_balance)
    (hc2 : s2 * p2 ≤ w.cash_balance - s1 * p1) :
    (dictGet ((((w.buy m q sd p1 (s1 * p1)).wallet).buy m q sd p2 (s2 * p2)).wallet).positions
        m).map Position.avgEntryPrice
      = some ((s1 * p1 + s2 * p2) / (s1 + s2)) := by
  obtain ⟨hcash1, hget1⟩ := buy_fresh w m q sd h0 hc1 hp1
  have hs1 : s1 * p1 / p1 = s1 := mul_div_cancel_right₀ s1 hp1
  have hs2 : s2 * p2 / p2 = s2 := mul_div_cancel_right₀ s2 hp2
  have hc2' : s2 * p2 ≤ ((w.buy m q sd p1 (s1 * p1)).wallet).cash_balance := by
    rw [hcash1]; exact hc2
  have h2 := buy_merge ((w.buy m q sd p1 (s1 * p1)).wallet) m q sd hget1 hc2' hp2
  rw [h2]
  simp [hs1, hs2, hs]

/-- Witness for C3: spending $100 at price 0.40 (250 shares) and then $50
at price 0.50 (100 shares) leaves an average entry price of
(100 + 50) / 350. -/
theorem c3_weighted_average_witness :
    (dictGet c3w2.positions "X").map Position.avgEntryPrice
      = some ((250 * (2/5) + 100 * (1/2)) / (250 + 100)) :=
  c3_weighted_average c3w0 "X" "q" "YES" (2/5) (1/2) 250 100
    (by simp [c3w0, PaperWallet.init, dictGet]) (by norm_num) (by norm_num) (by norm_num)
    (by norm_num [c3w0, PaperWallet.init]) (by norm_num [c3w0, PaperWallet.init])

/-- C1 (counterexample): on the spec's own scenario — deposit 1000, buy
$100 of X at 0.40, liquidate at 0.50 — the claimed quantity
`cashBalance + Σ shares·avgEntryPrice + Σ realizedPnL` is 1050, not the
initial balance 1000: the realized-PnL term enters with the wrong sign,
since the sale proceeds already credit the profit to cash. -/
theorem c1_conservation_counterexample :
    (runOps (PaperWallet.init 1000) scenarioOps).1.cash_balance
        + invested (runOps (PaperWallet.init 1000) scenarioOps).1
        + (runOps (PaperWallet.init 1000) scenarioOps).2
      ≠ 1000 := by
  norm_num [scenarioOps, runOps, PaperWallet.init, PaperWallet.buy, PaperWallet.sell,
    invested, dictSum, dictGet, dictSet, dictDel]

/-- C1 (amended): along any trace of buys with positive price and amount
and sells that request nonnegative counts and leave no sub-dust residue,
`cashBalance + Σ shares·avgEntryPrice` equals `initialBalance` PLUS the sum
of realized PnL — the PnL term carries the opposite sign to the claim. -/
theorem c1_conservation_amended (b : ℚ) (ops : List Op)
    (hg : goodOps (PaperWallet.init b) ops = true) :
    (runOps (PaperWallet.init b) ops).1.cash_balance
        + invested (runOps (PaperWallet.init b) ops).1
      = b + (runOps (PaperWallet.init b) ops).2 := by
  have hwf : (PaperWallet.init b).wf := by
    constructor <;> simp [PaperWallet.init]
  have h2 := (runOps_conserve ops (PaperWallet.init b) hwf hg).2
  have hinit_cash : (PaperWallet.init b).cash_balance = b := rfl
  have hinit_inv : invested (PaperWallet.init b) = 0 := rfl
  rw [hinit_cash, hinit_inv] at h2
  linarith

/-- Witness for C1 (amended): the scenario trace is good, and on it
cash + invested value is 1000 + 25 = 1025. -/
theorem c1_conservation_witness :
    goodOps (PaperWallet.init 1000) scenarioOps = true ∧
    (runOps (PaperWallet.init 1000) scenarioOps).1.cash_balance
        + invested (runOps (PaperWallet.init 1000) scenarioOps).1
      = 1000 + (runOps (PaperWallet.init 1000) scenarioOps).2 := by
  have hg : goodOps (PaperWallet.init 1000) scenarioOps = true := by
    norm_num [scenarioOps, goodOps, sellOk, PaperWallet.init, PaperWallet.buy,
      BuyResult.wallet, dictGet, dictSet]
  exact ⟨hg, c1_conservation_amended 1000 scenarioOps hg⟩

/-- C5 (counterexample): with a 100-share position on m1 carried at average
entry 0.50, a tick SELL at market price 0.50 realizes PnL 0, so the
orchestrator records `no_position` with `was_executed = 0` and emits no
TRADE_EXECUTED event — although a position existed and the wallet really
liquidated it (the position is gone afterwards). -/
theorem c5_no_position_counterexample :
    (sellBranch c5w "m1" (1/2)).1.execution_result = some "no_position" ∧
    (sellBranch c5w "m1" (1/2)).1.was_executed = 0 ∧
    (sellBranch c5w "m1" (1/2)).1.trade_event = false ∧
    dictGet c5w.positions "m1" ≠ none ∧
    dictGet ((sellBranch c5w "m1" (1/2)).2).positions "m1" = none := by
  norm_num [sellBranch, PaperWallet.sell, c5w, c5pos, dictGet, dictDel,
    Option.some_ne_none]

/-- C5 (amended): the SELL branch records `no_position` (was_executed 0,
no TRADE_EXECUTED event) exactly when the realized PnL of the sell is 0 —
which covers every truly position-less sell but also the liquidation of an
existing position at exactly its average entry price; it records `success`
with `was_executed = 1` exactly when the realized PnL is nonzero. -/
theorem c5_no_position_amended (w : PaperWallet) (m : String) (p : ℚ) :
    (dictGet w.positions m = none →
      (sellBranch w m p).1 = ⟨0, some "no_position", false⟩ ∧ (sellBranch w m p).2 = w) ∧
    ((sellBranch w m p).1.execution_result = some "no_position" ↔ (w.sell m p none).1 = 0) ∧
    ((sellBranch w m p).1.was_executed = 1 ↔ (w.sell m p none).1 ≠ 0) ∧
    ((sellBranch w m p).1.trade_event = true ↔ (w.sell m p none).1 ≠ 0) := by
  refine ⟨?_, ?_, ?_, ?_⟩
  · intro h
    simp [sellBranch, PaperWallet.sell, h]
  · by_cases hz : (w.sell m p none).1 = 0 <;> simp [sellBranch, hz]
  · by_cases hz : (w.sell m p none).1 = 0 <;> simp [sellBranch, hz]
  · by_cases hz : (w.sell m p none).1 = 0 <;> simp [sellBranch, hz]

/-- Witness for C5 (amended): on a fresh wallet with no position, the SELL
branch records `no_position` and leaves the wallet unchanged. -/
theorem c5_no_position_witness :
    (sellBranch (PaperWallet.init 1000) "m1" (1/2)).1 = ⟨0, some "no_position", false⟩ ∧
    (sellBranch (PaperWallet.init 1000) "m1" (1/2)).2 = PaperWallet.init 1000 :=
  (c5_no_position_amended (PaperWallet.init 1000) "m1" (1/2)).1
    (by simp [PaperWallet.init, dictGet])

/-- C6 (counterexample): two snapshot calls on the same wallet and the same
price map but one clock second apart differ — the `timestamp` field embeds
`datetime.utcnow()`, so the results are not bit-identical. -/
theorem c6_snapshot_counterexample :
    (PaperWallet.init 1000).get_snapshot [] c6t1
      ≠ (PaperWallet.init 1000).get_snapshot [] c6t2 := by
  intro h
  have ht := congrArg Snapshot.timestamp h
  simp only [PaperWallet.get_snapshot] at ht
  exact absurd ht (by decide)

/-- C6 (amended): two snapshot calls with identical wallet and price-map
inputs agree on every value field (`totalValue`, `cashBalance`,
`investedValue`, `dailyPnL`, `totalPnL`); the `timestamp` field is the
rendered clock reading, so the results are bit-identical exactly when the
wall-clock readings coincide. -/
theorem c6_snapshot_amended (w : PaperWallet) (prices : List (String × ℚ))
    (t1 t2 : PyDateTime) :
    (w.get_snapshot prices t1).totalValue = (w.get_snapshot prices t2).totalValue ∧
    (w.get_snapshot prices t1).cashBalance = (w.get_snapshot prices t2).cashBalance ∧
    (w.get_snapshot prices t1).investedValue = (w.get_snapshot prices t2).investedValue ∧
    (w.get_snapshot prices t1).dailyPnL = (w.get_snapshot prices t2).dailyPnL ∧
    (w.get_snapshot prices t1).totalPnL = (w.get_snapshot prices t2).totalPnL ∧
    (w.get_snapshot prices t1).timestamp = get_iso_time t1 ∧
    (t1 = t2 → w.get_snapshot prices t1 = w.get_snapshot prices t2) :=
  ⟨rfl, rfl, rfl, rfl, rfl, rfl, fun h => by rw [h]⟩

/-- Witness for C6 (amended): with the same clock reading the two snapshots
are bit-identical. -/
theorem c6_snapshot_witness :
    (PaperWallet.init 1000).get_snapshot [] c6t1
      = (PaperWallet.init 1000).get_snapshot [] c6t1 :=
  (c6_snapshot_amended (PaperWallet.init 1000) [] c6t1 c6t1).2.2.2.2.2.2 rfl

/-- C7: what the code emits is `utcnow().isoformat() + "Z"` — for every
wall-clock reading a valid `datetime` can take, the emitted string has
length 20 (no fractional seconds, microsecond = 0) or length 27 (six
fractional digits), and therefore NEVER matches the claimed 24-character
strict-millisecond shape `YYYY-MM-DDTHH:MM:SS.mmmZ`. -/
theorem c7_timestamp_format (t : PyDateTime)
    (hy : t.year < 10 ^ 4) (hmo : t.month < 10 ^ 2) (hd : t.day < 10 ^ 2)
    (hh : t.hour < 10 ^ 2) (hmi : t.minute < 10 ^ 2) (hs : t.second < 10 ^ 2)
    (hus : t.microsecond < 10 ^ 6) :
    strictMilliZ (get_iso_time t) = false ∧
    (get_iso_time t).length = if t.microsecond = 0 then 20 else 27 := by
  have hlen := get_iso_time_length t hy hmo hd hh hmi hs hus
  have hne : (get_iso_time t).length ≠ 24 := by
    rw [hlen]; by_cases h0 : t.microsecond = 0 <;> simp [h0]
  refine ⟨?_, hlen⟩
  simp [strictMilliZ, hne]

/-- Witness for C7: at 2026-02-07 14:30:00.123456 UTC the code emits
`2026-02-07T14:30:00.123456Z`, which fails the millisecond-shape contract
that the docstring's example `2026-02-07T14:30:00.000Z` satisfies. -/
theorem c7_timestamp_format_witness :
    strictMilliZ (get_iso_time c7t) = false ∧
    get_iso_time c7t = "2026-02-07T14:30:00.123456Z" ∧
    strictMilliZ "2026-02-07T14:30:00.000Z" = true := by
  refine ⟨(c7_timestamp_format c7t (by norm_num [c7t]) (by norm_num [c7t])
    (by norm_num [c7t]) (by norm_num [c7t]) (by norm_num [c7t]) (by norm_num [c7t])
    (by norm_num [c7t])).1, by decide, by decide⟩

/-- The confidence field of `analyze_market` is the truncation
`int(score * 100)` of the bonus-adjusted score, whatever branch is taken. -/
theorem analyze_market_confidence (b : BotStrategy) (category : String) (s sd : ℚ)
    (br sr : String) :
    (b.analyze_market category s sd br sr).confidence
      = pyInt ((if b.preferred_categories.contains category then s + 15/100 else s) * 100) := by
  simp only [BotStrategy.analyze_market]
  split_ifs <;> rfl

/-- C8 (counterexample): with base draw s = 0.999 on a preferred category,
the code computes `int((0.999 + 0.15) × 100) = 114`: the confidence is
neither `round(s × 100) = 100` nor within the claimed interval `[0, 100]`. -/
theorem c8_confidence_counterexample :
    ¬((c8strat.analyze_market "crypto" (999/1000) 0 "b" "s").confidence
          = round ((999/1000 : ℚ) * 100) ∧
      (c8strat.analyze_market "crypto" (999/1000) 0 "b" "s").confidence ≤ 100) := by
  have hc := analyze_market_confidence c8strat "crypto" (999/1000) 0 "b" "s"
  have hcont : (c8strat.preferred_categories.contains "crypto") = true := by decide
  rw [hcont] at hc
  simp only [eq_self_iff_true, if_true, ite_true] at hc
  have hval : pyInt (((999:ℚ)/1000 + 15/100) * 100) = 114 := by
    rw [pyInt_eq_floor (by norm_num)]
    norm_num [Int.floor_eq_iff]
  intro hand
  rw [hc, hval] at hand
  exact absurd hand.2 (by norm_num)

/-- C8 (amended): for every base draw `0 ≤ s < 1`, the decision's
confidence is `int(score × 100)` — the truncation of the bonus-adjusted
score, not the rounding of the base score — and it lies in `[0, 114]`; it
is bounded by 99 whenever the market's category is not preferred. -/
theorem c8_confidence_amended (b : BotStrategy) (category : String) (s sd : ℚ)
    (br sr : String) (h0 : 0 ≤ s) (h1 : s < 1) :
    (b.analyze_market category s sd br sr).confidence
        = pyInt ((if b.preferred_categories.contains category then s + 15/100 else s) * 100) ∧
    0 ≤ (b.analyze_market category s sd br sr).confidence ∧
    (b.analyze_market category s sd br sr).confidence ≤ 114 ∧
    (b.preferred_categories.contains category = false →
      (b.analyze_market category s sd br sr).confidence ≤ 99) := by
  have hc := analyze_market_confidence b category s sd br sr
  set score := if b.preferred_categories.contains category then s + 15/100 else s
    with hscore
  have hsc0 : 0 ≤ score := by rw [hscore]; split_ifs <;> linarith
  have hsc1 : score < 23/20 := by rw [hscore]; split_ifs <;> linarith
  have hfl : pyInt (score * 100) = ⌊score * 100⌋ :=
    pyInt_eq_floor (mul_nonneg hsc0 (by norm_num))
  refine ⟨hc, ?_, ?_, ?_⟩
  · rw [hc, hfl]
    exact Int.floor_nonneg.mpr (mul_nonneg hsc0 (by norm_num))
  · rw [hc, hfl]
    have hlt : ⌊score * 100⌋ < 115 := Int.floor_lt.mpr (by push_cast; linarith)
    omega
  · intro hnc
    rw [hc, hfl]
    have hss : score = s := by rw [hscore, hnc]; simp
    have hlt : ⌊score * 100⌋ < 100 := Int.floor_lt.mpr (by push_cast; rw [hss]; linarith)
    omega

/-- Witness for C8 (amended): on a non-preferred category with base draw
0.5 the confidence is int(50) = 50 and within all the proved bounds. -/
theorem c8_confidence_amended_witness :
    (c8strat.analyze_market "sports" (1/2) 0 "b" "s").confidence
        = pyInt ((if c8strat.preferred_categories.contains "sports"
                  then 1/2 + 15/100 else 1/2) * 100) ∧
    0 ≤ (c8strat.analyze_market "sports" (1/2) 0 "b" "s").confidence ∧
    (c8strat.analyze_market "sports" (1/2) 0 "b" "s").confidence ≤ 114 ∧
    (c8strat.analyze_market "sports" (1/2) 0 "b" "s").confidence ≤ 99 := by
  have h := c8_confidence_amended c8strat "sports" (1/2) 0 "b" "s"
    (by norm_num) (by norm_num)
  exact ⟨h.1, h.2.1, h.2.2.1, h.2.2.2 (by decide)⟩

/-- C10: whatever the random draws, `BotBrain.decide` returns action HOLD
or BUY — never SELL; the HOLD decision carries confidence 0 and no side
key; and consequently applying a `BotBrain` decision in a tick never
removes an existing position from the wallet. -/
theorem c10_brain_never_sell (t sdr : ℚ) (c : ℤ) (r : String) :
    ((BotBrain.decide t sdr c r).action = "HOLD" ∨
      (BotBrain.decide t sdr c r).action = "BUY") ∧
    (BotBrain.decide t sdr c r).action ≠ "SELL" ∧
    ((BotBrain.decide t sdr c r).action = "HOLD" →
      (BotBrain.decide t sdr c r).confidence = 0 ∧
      (BotBrain.decide t sdr c r).side = none) ∧
    ∀ (w : PaperWallet) (mId mQ : String) (p : ℚ) (k : String),
      dictGet w.positions k ≠ none →
      dictGet ((execDecision w (BotBrain.decide t sdr c r) mId mQ p).2).positions k
        ≠ none := by
  by_cases ht : t < 90/100
  · have hd : BotBrain.decide t sdr c r = ⟨"HOLD", 0, "Waiting for signal", none⟩ := by
      simp [BotBrain.decide, ht]
    rw [hd]
    refine ⟨Or.inl rfl, by decide, fun _ => ⟨rfl, rfl⟩, ?_⟩
    intro w mId mQ p k h
    simpa [execDecision] using h
  · have hd : BotBrain.decide t sdr c r
        = ⟨"BUY", c, r, some (if sdr > 1/2 then "YES" else "NO")⟩ := by
      simp [BotBrain.decide, ht]
    rw [hd]
    refine ⟨Or.inr rfl, ?_, ?_, ?_⟩
    · show ("BUY" : String) ≠ "SELL"
      decide
    · intro habs
      exact absurd (show ("BUY" : String) = "HOLD" from habs) (by decide)
    intro w mId mQ p k h
    have hkeep := buy_keeps_position w mId mQ
      (if sdr > (1:ℚ)/2 then "YES" else "NO") p 50 k h
    simp only [execDecision, Option.getD_some, eq_self_iff_true, if_true, ite_true]
    rcases hb : w.buy mId mQ (if sdr > (1:ℚ)/2 then "YES" else "NO") p 50
      with w' | w' | w'
    all_goals
      rw [hb] at hkeep
      simpa [BuyResult.wallet] using hkeep

/-- Witness for C10: with trade draw 0 the decision is a HOLD with
confidence 0 and no side, and executing it keeps the open m1 position. -/
theorem c10_brain_never_sell_witness :
    ((BotBrain.decide 0 0 80 "r").action = "HOLD" ∨
      (BotBrain.decide 0 0 80 "r").action = "BUY") ∧
    dictGet ((execDecision c10w (BotBrain.decide 0 0 80 "r") "m1" "q" (1/2)).2).positions
        "m1" ≠ none :=
  ⟨(c10_brain_never_sell 0 0 80 "r").1,
   (c10_brain_never_sell 0 0 80 "r").2.2.2 c10w "m1" "q" (1/2) "m1"
     (by simp [c10w, dictGet])⟩
